import Mathlib

/-!
# Verification of the system monitor core (systemmonitor.cpp)

Shallow embedding of the sampling-and-delta engine, aggregator, renderer
arithmetic and input-control flow of the single-file ncurses process monitor.

Conventions of the embedding:
* `unsigned long long` tick counters are modelled as `Nat` (the code guards
  every subtraction, so no wraparound arises in the modelled expressions;
  where the code can wrap — `utime + stime` — we take the value mod 2^64);
* `double` arithmetic is modelled exactly over `ℚ` (the claims are about the
  algebraic structure of the formulas, not about rounding of binary floats);
* `std::map<int, unsigned long long>` is modelled as an association list with
  C++ `operator[]` insert-or-assign semantics;
* fallible OS reads are modelled by an explicit environment (`ProcFS`), and a
  C++ exception escaping a function is modelled by `Option` (`none` = the
  uncaught exception aborts the call).
-/

namespace SystemMonitor

/-- `struct Proc` (systemmonitor.cpp lines 27-35). `prev_time` is unused by
the program outside the prior-state map, so it is not carried here. -/
structure Proc where
  pid : Int
  name : String
  time : Nat
  rss_pages : Int
  cpu_pct : ℚ
  mem_pct : ℚ
  deriving Repr, DecidableEq

/-! ## Prior-state map (`std::map<int, unsigned long long> prev_proc_time`) -/

/-- `m.count(k) ? m[k] : default` — lookup in the association list. -/
def mapFind (m : List (Int × Nat)) (k : Int) : Option Nat :=
  match m with
  | [] => none
  | (k', v) :: rest => if k' = k then some v else mapFind rest k

/-- `m[k] = v` on `std::map`: assign if the key is present, insert otherwise. -/
def mapInsert (m : List (Int × Nat)) (k : Int) (v : Nat) : List (Int × Nat) :=
  match m with
  | [] => [(k, v)]
  | (k', v') :: rest => if k' = k then (k, v) :: rest else (k', v') :: mapInsert rest k v

/-- `m.count(k)` viewed as a Boolean membership test. -/
def containsKey (m : List (Int × Nat)) (k : Int) : Bool :=
  (mapFind m k).isSome

/-! ## DeltaEngine arithmetic (main loop, lines 207-214) -/

/-- `prev = prev_proc_time.count(p.pid) ? prev_proc_time[p.pid] : p.time`
(line 208). -/
def priorFor (m : List (Int × Nat)) (pid : Int) (cur : Nat) : Nat :=
  match mapFind m pid with
  | some v => v
  | none => cur

/-- `delta = (p.time > prev) ? (p.time - prev) : 0ULL` (line 209). -/
def deltaTicks (cur prev : Nat) : Nat :=
  if prev < cur then cur - prev else 0

/-- `if (interval <= 0.0) interval = 1.0;` (line 191). -/
def effInterval (interval : ℚ) : ℚ :=
  if interval ≤ 0 then 1 else interval

/-- `p.cpu_pct = (interval > 0.0) ? (proc_seconds / interval) * 100.0 : 0.0`
with `proc_seconds = delta / CLK_TCK` (lines 211-212). -/
def cpuPct (clk : ℚ) (delta : Nat) (interval : ℚ) : ℚ :=
  let procSeconds : ℚ := (delta : ℚ) / clk
  if 0 < interval then procSeconds / interval * 100 else 0

/-! ## Aggregator arithmetic -/

/-- `p.mem_pct = (mem_total_mb > 0.0) ? (rss_mb / mem_total_mb) * 100.0 : 0.0`
with `rss_mb = rss_pages * PAGE_SIZE / 2^20` (lines 217-219). -/
def memPct (pageSize : ℚ) (rssPages : Int) (memTotalMb : ℚ) : ℚ :=
  let rssBytes : ℚ := (rssPages : ℚ) * pageSize
  let rssMb : ℚ := rssBytes / (1024 * 1024)
  if 0 < memTotalMb then rssMb / memTotalMb * 100 else 0

/-- The displayed aggregate CPU indicator (lines 245-253): starts at `0.0`
and is replaced by the sum of per-process `cpu_pct` only when
`total_time_delta > 0`. -/
def aggregateCpu (totalTimeDelta : Nat) (procs : List Proc) : ℚ :=
  if 0 < totalTimeDelta then (procs.map (fun p => p.cpu_pct)).sum else 0

/-- `total_time_delta = (total_time > prev_total_time) ? ... : 0ULL`
(line 195): same clamped-delta shape as the per-process one. -/
def totalTimeDelta (cur prev : Nat) : Nat :=
  if prev < cur then cur - prev else 0

/-! ## Renderer: draw_bar (lines 156-161) -/

/-- The C cast `(int)x` of a real value: truncation toward zero. -/
def cCastInt (q : ℚ) : Int :=
  if 0 ≤ q then ⌊q⌋ else ⌈q⌉

/-- `int filled = (int)(fraction * width + 0.5);` (line 157). -/
def drawBarFilled (width : Nat) (fraction : ℚ) : Int :=
  cCastInt (fraction * width + 1/2)

/-- How many cells the loop at lines 158-160 draws filled: cell `i` (for
`0 ≤ i < width`) shows `ACS_CKBOARD` exactly when `i < filled`. -/
def drawnCells (width : Nat) (fraction : ℚ) : Nat :=
  (List.range width).countP
    (fun (i : Nat) => decide ((i : Int) < drawBarFilled width fraction))

/-! ## Aggregator: sorting (lines 223-237) -/

/-- The comparator shape shared by the two descending sorts (the lambdas at
lines 224-227 and 229-232, with `key` instantiated to `cpu_pct` resp.
`mem_pct`): equal keys compare by ascending pid, otherwise by descending
key. -/
def cmpByKey (key : Proc → ℚ) (a b : Proc) : Bool :=
  if key a = key b then decide (a.pid < b.pid) else decide (key b < key a)

/-- The ascending-pid comparator (lines 234-236). -/
def cmpPid (a b : Proc) : Bool :=
  decide (a.pid < b.pid)

/-- The ordering `std::sort` guarantees for its output under a strict
comparator `cmp`: an element is never `cmp`-before one placed earlier. -/
def sortLe (cmp : Proc → Proc → Bool) (a b : Proc) : Prop :=
  cmp b a = false

instance (cmp : Proc → Proc → Bool) : DecidableRel (sortLe cmp) :=
  fun a b => by unfold sortLe; infer_instance

/-- `std::sort(procs.begin(), procs.end(), cmp)`: a permutation of the input
ordered by the comparator. With the strict weak orders the code passes, that
output is realised by insertion sort on the complement relation
`sortLe cmp`. -/
def sortWith (cmp : Proc → Proc → Bool) (ps : List Proc) : List Proc :=
  List.insertionSort (sortLe cmp) ps

/-- The `sort_mode` dispatch (lines 223-237): `0` = BY_CPU_DESC,
`1` = BY_MEM_DESC, anything else = BY_PID_ASC. -/
def sortProcs (sortMode : Nat) (ps : List Proc) : List Proc :=
  if sortMode = 0 then sortWith (cmpByKey fun p => p.cpu_pct) ps
  else if sortMode = 1 then sortWith (cmpByKey fun p => p.mem_pct) ps
  else sortWith cmpPid ps

/-- Concrete process views exercising the sorting claims (a cpu tie between
pids 2 and 1, distinct memory shares). -/
def wpA : Proc :=
  { pid := 2, name := "a", time := 0, rss_pages := 0, cpu_pct := 5, mem_pct := 1 }

def wpB : Proc :=
  { pid := 1, name := "b", time := 0, rss_pages := 0, cpu_pct := 5, mem_pct := 2 }

def wpC : Proc :=
  { pid := 3, name := "c", time := 0, rss_pages := 0, cpu_pct := 7, mem_pct := 0 }

/-! ## The per-process loop body and the session fold (lines 207-220) -/

/-- One execution of the `for (auto &p : procs)` body for a single process:
compute `cpu_pct` from the clamped delta against the prior-state map,
overwrite the map entry for the pid with the new observation, and compute
`mem_pct`. -/
def stepProc (clk interval memTotalMb pageSize : ℚ) (m : List (Int × Nat))
    (p : Proc) : Proc × List (Int × Nat) :=
  let prev := priorFor m p.pid p.time
  let delta := deltaTicks p.time prev
  let cpu := cpuPct clk delta interval
  let m' := mapInsert m p.pid p.time
  ({ p with cpu_pct := cpu, mem_pct := memPct pageSize p.rss_pages memTotalMb }, m')

/-- The whole per-process loop of one iteration, threading the prior-state
map left to right exactly as the C++ loop mutates it. -/
def stepProcs (clk interval memTotalMb pageSize : ℚ) (m : List (Int × Nat)) :
    List Proc → List Proc × List (Int × Nat)
  | [] => ([], m)
  | p :: rest =>
    let pm := stepProc clk interval memTotalMb pageSize m p
    let rm := stepProcs clk interval memTotalMb pageSize pm.2 rest
    (pm.1 :: rm.1, rm.2)

/-- The inputs one monitoring iteration feeds into the loop body: the OS
constants, the measured interval, the memory total, and the snapshot. -/
structure Iteration where
  clk : ℚ
  interval : ℚ
  memTotalMb : ℚ
  pageSize : ℚ
  procs : List Proc
  deriving Repr, DecidableEq

/-- The evolution of `prev_proc_time` across a whole monitoring session:
each iteration's loop body is folded over the map in order. The map is
never erased anywhere in `main`, so this fold is its complete history. -/
def runSession (m : List (Int × Nat)) : List Iteration → List (Int × Nat)
  | [] => m
  | it :: rest =>
      runSession (stepProcs it.clk it.interval it.memTotalMb it.pageSize m it.procs).2 rest

/-! ## InputController: the kill sub-flow (lines 300-321) -/

/-- C `isspace` in the default locale. -/
def isSpaceC (c : Char) : Bool :=
  c = ' ' || (9 ≤ c.toNat && c.toNat ≤ 13)

/-- Value of a decimal digit string. -/
def digitsToNat (ds : List Char) : Nat :=
  ds.foldl (fun a c => a * 10 + (c.toNat - 48)) 0

/-- C `atoi`: skip leading whitespace, accept one optional sign, convert the
longest leading run of decimal digits, and return `0` when there is none.
(Values beyond `int` range are undefined behaviour in C; the model keeps the
mathematical value, which the claims never exercise.) -/
def atoi (s : String) : Int :=
  let cs := s.data.dropWhile isSpaceC
  match cs with
  | '-' :: rest => -(digitsToNat (rest.takeWhile Char.isDigit) : Int)
  | '+' :: rest => (digitsToNat (rest.takeWhile Char.isDigit) : Int)
  | _ => (digitsToNat (cs.takeWhile Char.isDigit) : Int)

/-- Terminal input-mode flags managed around the kill sub-flow:
`nodelay` (non-blocking reads), `echo`, and cursor visibility. -/
structure TermMode where
  nodelay : Bool
  echo : Bool
  cursorVisible : Bool
  deriving Repr, DecidableEq

/-- Loop state the kill sub-flow must not touch: the sort mode and the
prior-state map. -/
structure LoopState where
  sortMode : Nat
  prior : List (Int × Nat)
  deriving Repr, DecidableEq

def setNodelay (b : Bool) (tm : TermMode) : TermMode := { tm with nodelay := b }

def setEcho (b : Bool) (tm : TermMode) : TermMode := { tm with echo := b }

def setCursorVisible (b : Bool) (tm : TermMode) : TermMode :=
  { tm with cursorVisible := b }

/-- The parse-and-signal decision of the kill sub-flow (lines 307-310):
`getnstr(buf, 31)` bounds the line at 31 characters, `atoi` parses it, and
`kill(okpid, SIGTERM)` is requested only when `okpid > 0`. The result is the
pid a termination signal is sent to, or `none` when no signal is sent. -/
def killTarget (line : String) : Option Int :=
  let okpid := atoi (String.mk (line.data.take 31))
  if 0 < okpid then some okpid else none

/-- The whole kill sub-flow (lines 300-321) as a state transformer: switch to
blocking echoed input with a visible cursor, read and parse a line, possibly
signal, then unconditionally restore non-blocking unechoed input with a
hidden cursor. The loop state is never mentioned by the branch. -/
def killSubflow (tm : TermMode) (ls : LoopState) (line : String) :
    TermMode × LoopState × Option Int :=
  let tm1 := setNodelay false tm
  let tm2 := setEcho true tm1
  let tm3 := setCursorVisible true tm2
  let signalled := killTarget line
  let tm4 := setEcho false tm3
  let tm5 := setCursorVisible false tm4
  let tm6 := setNodelay true tm5
  (tm6, ls, signalled)

/-! ## SnapshotReader: read_process_basic / get_all_processes (lines 79-154)

The `/proc` filesystem is the external collaborator; it is modelled as an
environment giving, per pid, the `read_first_line` results for `comm`,
`stat` and `statm` (that helper returns `""` for a missing, unreadable or
empty file) and the `VmRSS:` line of `status` when one exists. -/

structure ProcFS where
  commLine : Int → String
  statLine : Int → String
  statmLine : Int → String
  statusVmRSSKb : Int → Option Int

/-- Whitespace tokenisation as done by repeated `istringstream >> token`:
the maximal non-blank runs, in order. -/
def tokensAux (cur : List Char) : List Char → List String
  | [] => if cur = [] then [] else [String.mk cur.reverse]
  | c :: rest =>
    if isSpaceC c then
      if cur = [] then tokensAux [] rest
      else String.mk cur.reverse :: tokensAux [] rest
    else tokensAux (c :: cur) rest

def tokens (s : String) : List String :=
  tokensAux [] s.data

/-- `std::stoull` in base 10: skip whitespace, one optional sign, then a
digit run converted into `unsigned long long` (a negative sign wraps modulo
2^64). `none` models the `invalid_argument` exception (no digits) or
`out_of_range` (magnitude beyond 64 bits). -/
def stoull (s : String) : Option Nat :=
  match s.data.dropWhile isSpaceC with
  | '-' :: rest =>
    if rest.takeWhile Char.isDigit = [] then none
    else
      if digitsToNat (rest.takeWhile Char.isDigit) < 2 ^ 64 then
        some ((2 ^ 64 - digitsToNat (rest.takeWhile Char.isDigit)) % 2 ^ 64)
      else none
  | '+' :: rest =>
    if rest.takeWhile Char.isDigit = [] then none
    else
      if digitsToNat (rest.takeWhile Char.isDigit) < 2 ^ 64 then
        some (digitsToNat (rest.takeWhile Char.isDigit))
      else none
  | cs =>
    if cs.takeWhile Char.isDigit = [] then none
    else
      if digitsToNat (cs.takeWhile Char.isDigit) < 2 ^ 64 then
        some (digitsToNat (cs.takeWhile Char.isDigit))
      else none

/-- `istream >> (long)` on a character stream: skip whitespace, one optional
sign, a digit run; the value and the remaining stream, or `none` on
extraction failure. (Saturation at `LONG_MAX` is not modelled; the claims
never reach it.) -/
def readLongFrom (cs : List Char) : Option (Int × List Char) :=
  match cs.dropWhile isSpaceC with
  | '-' :: rest =>
    if rest.takeWhile Char.isDigit = [] then none
    else some (-(digitsToNat (rest.takeWhile Char.isDigit) : Int),
      rest.drop (rest.takeWhile Char.isDigit).length)
  | '+' :: rest =>
    if rest.takeWhile Char.isDigit = [] then none
    else some ((digitsToNat (rest.takeWhile Char.isDigit) : Int),
      rest.drop (rest.takeWhile Char.isDigit).length)
  | cs' =>
    if cs'.takeWhile Char.isDigit = [] then none
    else some ((digitsToNat (cs'.takeWhile Char.isDigit) : Int),
      cs'.drop (cs'.takeWhile Char.isDigit).length)

/-- `iss >> size >> rss` on the `statm` line (lines 115-119): a failed
extraction leaves the zero-initialised `rss` in place (C++11 writes `0` to
a failed target). -/
def parseStatmRss (s : String) : Int :=
  match readLongFrom s.data with
  | none => 0
  | some (_, rest) =>
    match readLongFrom rest with
    | none => 0
    | some (rss, _) => rss

/-- The `VmRSS` fallback (lines 121-133): `rss_pages = kb * 1024 / PAGE_SIZE`
with C integer division (truncation toward zero). -/
def rssFromStatus (pageSize kb : Int) : Int :=
  Int.tdiv (kb * 1024) pageSize

/-- The `utime + stime` extraction (lines 96-110): `p.time` stays `0` for an
empty `stat` read or fewer than 22 tokens; `none` models the `std::stoull`
exception on a 14th or 15th token it rejects. Unsigned addition wraps. -/
def procTimeOf (fs : ProcFS) (pid : Int) : Option Nat :=
  if fs.statLine pid ≠ "" then
    if 22 ≤ (tokens (fs.statLine pid)).length then
      match stoull ((tokens (fs.statLine pid)).getD 13 ""),
            stoull ((tokens (fs.statLine pid)).getD 14 "") with
      | some utime, some stime => some ((utime + stime) % 2 ^ 64)
      | _, _ => none
    else some 0
  else some 0

/-- The rss extraction (lines 113-134): `statm` when non-empty, else the
`VmRSS` fallback, else the zero-initialised field. -/
def procRssOf (fs : ProcFS) (pageSize : Int) (pid : Int) : Int :=
  if fs.statmLine pid ≠ "" then parseStatmRss (fs.statmLine pid)
  else
    match fs.statusVmRSSKb pid with
    | some kb => rssFromStatus pageSize kb
    | none => 0

/-- `read_process_basic` (lines 88-137); `none` is the uncaught `std::stoull`
exception escaping the function. -/
def read_process_basic (fs : ProcFS) (pageSize : Int) (pid : Int) : Option Proc :=
  match procTimeOf fs pid with
  | none => none
  | some t =>
    some { pid := pid, name := fs.commLine pid, time := t,
           rss_pages := procRssOf fs pageSize pid, cpu_pct := 0, mem_pct := 0 }

/-- `is_digits` (lines 79-86): non-empty and all decimal digits. -/
def is_digits (s : String) : Bool :=
  s ≠ "" && s.data.all Char.isDigit

/-- The enumeration in `get_all_processes` (lines 144-147): directory entry
names passing `is_digits`, converted by `atoi`. -/
def enumeratePids (names : List String) : List Int :=
  (names.filter is_digits).map atoi

/-- `get_all_processes` (lines 139-154) over the enumerated pids: one
`read_process_basic` per pid, pushed in order; an escaped exception aborts
the whole traversal (nothing in `main` catches it). -/
def get_all_processes (fs : ProcFS) (pageSize : Int) : List Int → Option (List Proc)
  | [] => some []
  | pid :: rest =>
    match read_process_basic fs pageSize pid,
          get_all_processes fs pageSize rest with
    | some p, some ps => some (p :: ps)
    | _, _ => none

/-- The stat records on which the tick parse cannot throw: fewer than 22
whitespace tokens, or 14th and 15th tokens that `stoull` accepts. -/
def statOk (fs : ProcFS) (pid : Int) : Bool :=
  if 22 ≤ (tokens (fs.statLine pid)).length then
    ((stoull ((tokens (fs.statLine pid)).getD 13 "")).isSome
      && (stoull ((tokens (fs.statLine pid)).getD 14 "")).isSome)
  else true

/-- A `/proc` state with one process whose `stat` record holds 22 fields but
a non-numeric value where the 14th token is expected — exactly what a comm
value containing spaces produces by shifting the state letter rightward. -/
def badFS : ProcFS :=
  { commLine := fun _ => "a b c d e f g h i j k"
    statLine := fun pid =>
      if pid = 5 then "5 (a b c d e f g h i j k) R X 1 2 3 4 5 6 7 8" else ""
    statmLine := fun _ => ""
    statusVmRSSKb := fun _ => none }

/-- The environment of a vanished process: every per-process read fails. -/
def emptyFS : ProcFS :=
  { commLine := fun _ => "", statLine := fun _ => "",
    statmLine := fun _ => "", statusVmRSSKb := fun _ => none }

/-- The display snapshot used in the C2 analysis: a process view carrying a
positive `cpu_pct`, as produced by a normally advancing per-process counter. -/
def c2proc : Proc :=
  { pid := 1, name := "init", time := 150, rss_pages := 10,
    cpu_pct := 50, mem_pct := 0 }

end SystemMonitor

namespace SystemMonitor

/-! ## Claim C1: per-process delta computation -/

/-- **C1.** When the new cumulative tick count `t1` is at least the stored
prior `t0`, the computed delta is `t1 - t0`; when `t1 < t0` it is `0`; and a
pid absent from the prior-state map defaults its prior to the current
observation, so the first-sight delta is `0`. -/
theorem c1_delta_clamp (t0 t1 : Nat) (m : List (Int × Nat)) (pid : Int) (cur : Nat)
    (hm : mapFind m pid = none) :
    (t0 ≤ t1 → deltaTicks t1 t0 = t1 - t0) ∧
    (t1 < t0 → deltaTicks t1 t0 = 0) ∧
    deltaTicks cur (priorFor m pid cur) = 0 := by
  refine ⟨fun h => ?_, fun h => ?_, ?_⟩
  · unfold deltaTicks
    rcases Nat.lt_or_ge t0 t1 with h' | h'
    · simp [h']
    · have : t0 = t1 := Nat.le_antisymm h h'
      subst this
      simp
  · unfold deltaTicks
    simp [Nat.not_lt.mpr (Nat.le_of_lt h)]
  · unfold priorFor
    rw [hm]
    simp [deltaTicks]

theorem c1_delta_clamp_witness :
    deltaTicks 150 100 = 50 ∧ deltaTicks 2 9 = 0 ∧
    deltaTicks 7 (priorFor [] 42 7) = 0 :=
  ⟨(c1_delta_clamp 100 150 [] 42 7 rfl).1 (by decide),
   (c1_delta_clamp 9 2 [] 42 7 rfl).2.1 (by decide),
   (c1_delta_clamp 0 0 [] 42 7 rfl).2.2⟩

/-! ## Claim C6: memory percentage -/

/-- **C6.** With `mem_total_mb = kB / 1024` as read from `/proc/meminfo`,
`mem_pct` equals `resident_bytes / mem_total_bytes * 100` whenever the
reported total is positive, and is exactly `0` when the reported total is
`0` — the guarded branch never divides by zero. -/
theorem c6_mem_pct (pageSize : ℚ) (rss : Int) (memTotalKb : ℕ)
    (h : 0 < memTotalKb) :
    memPct pageSize rss ((memTotalKb : ℚ) / 1024)
      = ((rss : ℚ) * pageSize) / ((memTotalKb : ℚ) * 1024) * 100 ∧
    memPct pageSize rss ((0 : ℚ) / 1024) = 0 := by
  constructor
  · have hk : (0 : ℚ) < (memTotalKb : ℚ) := by exact_mod_cast h
    have hpos : (0 : ℚ) < (memTotalKb : ℚ) / 1024 := by positivity
    unfold memPct
    rw [if_pos hpos]
    field_simp
    ring
  · unfold memPct
    norm_num

theorem c6_mem_pct_witness :
    memPct 4096 25600 (1024000 / 1024)
      = ((25600 : ℚ) * 4096) / ((1024000 : ℚ) * 1024) * 100 ∧
    memPct 4096 25600 ((0 : ℚ) / 1024) = 0 :=
  c6_mem_pct 4096 25600 1024000 (by decide)

/-! ## Claim C7: interval fallback and non-negative cpu_pct -/

/-- **C7.** A non-positive measured interval (the clock anomaly guarded at
line 191) is replaced by the fallback constant `1.0` before the percentage
computation; the effective interval is therefore always positive, and with a
positive `CLK_TCK` no process is ever assigned a negative `cpu_pct`. -/
theorem c7_interval_fallback (interval clk : ℚ) (delta : Nat) (hclk : 0 < clk) :
    (interval ≤ 0 → effInterval interval = 1) ∧
    0 < effInterval interval ∧
    0 ≤ cpuPct clk delta (effInterval interval) := by
  have hpos : 0 < effInterval interval := by
    unfold effInterval
    split
    · norm_num
    · rename_i h
      exact not_le.mp h
  refine ⟨fun h => ?_, hpos, ?_⟩
  · unfold effInterval
    rw [if_pos h]
  · unfold cpuPct
    rw [if_pos hpos]
    have hd : (0 : ℚ) ≤ (delta : ℚ) / clk := by positivity
    positivity

theorem c7_interval_fallback_witness :
    effInterval (-3/10) = 1 ∧ 0 < effInterval (-3/10) ∧
    0 ≤ cpuPct 100 5 (effInterval (-3/10)) :=
  ⟨(c7_interval_fallback (-3/10) 100 5 (by norm_num)).1 (by norm_num),
   (c7_interval_fallback (-3/10) 100 5 (by norm_num)).2.1,
   (c7_interval_fallback (-3/10) 100 5 (by norm_num)).2.2⟩

/-! ## Claim C2: aggregate CPU indicator (corrected)

The display code (lines 245-253) initialises the aggregate to `0.0` and only
overwrites it with the per-process sum inside `if (total_time_delta > 0)`.
When the `/proc/stat` read fails, `read_total_time_from_proc_stat` returns
`0`, so `total_time_delta` clamps to `0` while per-process ticks can still
advance: the display shows `0`, not the sum. -/

/-- **C2 counterexample.** After a failed `/proc/stat` read (current total
`0`, previous total `500`), the displayed aggregate is `0`, which differs
from the sum of `cpu_pct` over the snapshot. -/
theorem c2_counterexample :
    aggregateCpu (totalTimeDelta 0 500) [c2proc]
      ≠ ([c2proc].map (fun p => p.cpu_pct)).sum := by
  norm_num [aggregateCpu, totalTimeDelta, c2proc]

/-- **C2 amended.** The displayed aggregate equals the sum of `cpu_pct` over
all processes in the snapshot whenever the system-wide tick delta is
positive; when that delta is zero the display shows `0` regardless of the
per-process percentages. -/
theorem c2_aggregate_sum (d : Nat) (procs : List Proc) (hd : 0 < d) :
    aggregateCpu d procs = (procs.map (fun p => p.cpu_pct)).sum ∧
    aggregateCpu 0 procs = 0 := by
  constructor
  · unfold aggregateCpu
    rw [if_pos hd]
  · unfold aggregateCpu
    norm_num

theorem c2_aggregate_sum_witness :
    aggregateCpu 7 [c2proc] = ([c2proc].map (fun p => p.cpu_pct)).sum ∧
    aggregateCpu 0 [c2proc] = 0 :=
  c2_aggregate_sum 7 [c2proc] (by decide)

/-! ## Claim C8: kill sub-flow parse guard -/

/-- **C8.** Whenever the entered line parses (via `atoi` on the 31-character
bounded buffer) to a value `≤ 0` — which includes non-numeric input, parsed
as `0` — no termination signal is sent; and a signal is sent only to a pid
whose parsed value is strictly positive. -/
theorem c8_kill_guard (line : String) (p : Int) :
    (atoi (String.mk (line.data.take 31)) ≤ 0 → killTarget line = none) ∧
    (killTarget line = some p →
      0 < p ∧ p = atoi (String.mk (line.data.take 31))) := by
  constructor
  · intro h
    unfold killTarget
    rw [if_neg (not_lt.mpr h)]
  · intro h
    unfold killTarget at h
    by_cases hpos : 0 < atoi (String.mk (line.data.take 31))
    · rw [if_pos hpos] at h
      have he := Option.some.inj h
      exact ⟨he ▸ hpos, he.symm⟩
    · rw [if_neg hpos] at h
      exact absurd h (by simp)

theorem c8_kill_guard_witness :
    killTarget "abc" = none ∧
    (0 < (4321 : Int) ∧ (4321 : Int) = atoi (String.mk ("4321".data.take 31))) :=
  ⟨(c8_kill_guard "abc" 0).1 (by decide),
   (c8_kill_guard "4321" 4321).2 (by decide)⟩

/-! ## Claim C10: kill sub-flow frame condition -/

/-- **C10.** After the kill sub-flow, whatever the entered line was and
whatever the parse produced, the input mode is restored to non-blocking with
echo disabled and the cursor hidden, the loop state (sort mode and
prior-state map) is unchanged, and the only observable action is the
`killTarget` signal decision. -/
theorem c10_killflow_frame (tm : TermMode) (ls : LoopState) (line : String) :
    (killSubflow tm ls line).1
      = { nodelay := true, echo := false, cursorVisible := false } ∧
    (killSubflow tm ls line).2.1 = ls ∧
    (killSubflow tm ls line).2.2 = killTarget line :=
  ⟨rfl, rfl, rfl⟩

/-! ## Claim C9: growth of the prior-state map -/

theorem containsKey_mapInsert_self (m : List (Int × Nat)) (k : Int) (v : Nat) :
    containsKey (mapInsert m k v) k = true := by
  induction m with
  | nil => simp [mapInsert, containsKey, mapFind]
  | cons kv rest ih =>
    obtain ⟨k', v'⟩ := kv
    by_cases h : k' = k
    · simp [mapInsert, h, containsKey, mapFind]
    · simpa [mapInsert, h, containsKey, mapFind] using ih

theorem containsKey_mapInsert_of (m : List (Int × Nat)) (k k' : Int) (v : Nat)
    (h : containsKey m k' = true) : containsKey (mapInsert m k v) k' = true := by
  induction m with
  | nil => simp [containsKey, mapFind] at h
  | cons kv rest ih =>
    obtain ⟨k0, v0⟩ := kv
    by_cases h0 : k0 = k
    · by_cases h1 : k = k'
      · simp [mapInsert, h0, containsKey, mapFind, h1]
      · have h2 : ¬ k0 = k' := by rw [h0]; exact h1
        simp [containsKey, mapFind, h2] at h
        simpa [mapInsert, h0, containsKey, mapFind, h1] using h
    · by_cases h1 : k0 = k'
      · have h2 : ¬ k' = k := by rw [← h1]; exact h0
        simp [mapInsert, containsKey, mapFind, h1, h2, if_neg h2]
      · simp [containsKey, mapFind, h1] at h
        simpa [mapInsert, h0, containsKey, mapFind, h1] using ih h

theorem stepProcs_contains_of (clk interval memTotalMb pageSize : ℚ)
    (ps : List Proc) (k : Int) :
    ∀ (m : List (Int × Nat)), containsKey m k = true →
      containsKey (stepProcs clk interval memTotalMb pageSize m ps).2 k = true := by
  induction ps with
  | nil => intro m h; exact h
  | cons p rest ih =>
    intro m h
    exact ih (mapInsert m p.pid p.time)
      (containsKey_mapInsert_of m p.pid k p.time h)

theorem stepProcs_contains_mem (clk interval memTotalMb pageSize : ℚ)
    (ps : List Proc) (p : Proc) :
    ∀ (m : List (Int × Nat)), p ∈ ps →
      containsKey (stepProcs clk interval memTotalMb pageSize m ps).2 p.pid = true := by
  induction ps with
  | nil => intro m hp; cases hp
  | cons q rest ih =>
    intro m hp
    rcases List.mem_cons.mp hp with h | h
    · subst h
      exact stepProcs_contains_of clk interval memTotalMb pageSize rest p.pid
        (mapInsert m p.pid p.time) (containsKey_mapInsert_self m p.pid p.time)
    · exact ih (mapInsert m q.pid q.time) h

theorem runSession_contains_of (iters : List Iteration) (k : Int) :
    ∀ (m : List (Int × Nat)), containsKey m k = true →
      containsKey (runSession m iters) k = true := by
  induction iters with
  | nil => intro m h; exact h
  | cons it rest ih =>
    intro m h
    exact ih _ (stepProcs_contains_of it.clk it.interval it.memTotalMb
      it.pageSize it.procs k m h)

theorem runSession_contains_snapshot (iters : List Iteration) (it : Iteration)
    (p : Proc) :
    ∀ (m : List (Int × Nat)), it ∈ iters → p ∈ it.procs →
      containsKey (runSession m iters) p.pid = true := by
  induction iters with
  | nil => intro m hit _; cases hit
  | cons it0 rest ih =>
    intro m hit hp
    rcases List.mem_cons.mp hit with h0 | h0
    · subst h0
      exact runSession_contains_of rest p.pid _
        (stepProcs_contains_mem it.clk it.interval it.memTotalMb
          it.pageSize it.procs p m hp)
    · exact ih _ h0 hp

/-! ## Claim C4: snapshot robustness (corrected)

`read_process_basic` parses `utime`/`stime` with `std::stoull` whenever the
stat line splits into at least 22 tokens (line 104), and nothing catches the
`std::invalid_argument` it throws when that token has no digits — a
malformed record with 22 or more fields and a non-numeric 14th field aborts
the whole program, it does not degrade to a zero record. -/

/-- **C4 counterexample.** In the `badFS` environment, pid 5 is enumerated
but its stat record (22 tokens, 14th = `"X"`) makes `std::stoull` throw:
the snapshot read aborts and yields no `ProcessSample` at all, instead of
one degraded record for the pid. -/
theorem c4_counterexample :
    get_all_processes badFS 4096 (enumeratePids ["5"]) = none := by
  decide

theorem procTimeOf_isSome (fs : ProcFS) (pid : Int) (h : statOk fs pid = true) :
    ∃ t, procTimeOf fs pid = some t := by
  unfold statOk at h
  unfold procTimeOf
  by_cases hs : fs.statLine pid = ""
  · rw [if_neg (not_not_intro hs)]
    exact ⟨0, rfl⟩
  · rw [if_pos hs]
    by_cases hl : 22 ≤ (tokens (fs.statLine pid)).length
    · rw [if_pos hl]
      rw [if_pos hl] at h
      rw [Bool.and_eq_true] at h
      obtain ⟨h1, h2⟩ := h
      rcases Option.isSome_iff_exists.mp h1 with ⟨u, hu⟩
      rcases Option.isSome_iff_exists.mp h2 with ⟨v, hv⟩
      rw [hu, hv]
      exact ⟨_, rfl⟩
    · rw [if_neg hl]
      exact ⟨0, rfl⟩

theorem get_all_processes_ok (fs : ProcFS) (pageSize : Int) :
    ∀ (pids : List Int), (∀ pid ∈ pids, statOk fs pid = true) →
      ∃ l, get_all_processes fs pageSize pids = some l ∧
        l.map (fun p => p.pid) = pids := by
  intro pids
  induction pids with
  | nil => exact fun _ => ⟨[], rfl, rfl⟩
  | cons pid rest ih =>
    intro hok
    obtain ⟨t, ht⟩ := procTimeOf_isSome fs pid (hok pid (List.mem_cons_self _ _))
    obtain ⟨l, hl, hmap⟩ := ih (fun q hq => hok q (List.mem_cons_of_mem _ hq))
    refine ⟨{ pid := pid, name := fs.commLine pid, time := t,
              rss_pages := procRssOf fs pageSize pid,
              cpu_pct := 0, mem_pct := 0 } :: l, ?_, ?_⟩
    · unfold get_all_processes read_process_basic
      rw [ht, hl]
    · simp [hmap]

/-- **C4 amended.** Every pid produced by the enumeration yields exactly one
`ProcessSample`, in order, and a fully failed per-process read (vanished
process, permission denied: empty `comm`, `stat` and `statm`, no `VmRSS`)
degrades that single record to zero/blank fields — *provided* no stat record
of an enumerated pid has 22 or more tokens with a 14th or 15th token that
`std::stoull` rejects; such a record aborts the whole snapshot instead. -/
theorem c4_read_degrades (fs : ProcFS) (pageSize : Int) (names : List String)
    (hok : ∀ pid ∈ enumeratePids names, statOk fs pid = true) :
    (∃ l, get_all_processes fs pageSize (enumeratePids names) = some l ∧
      l.map (fun p => p.pid) = enumeratePids names) ∧
    (∀ pid, fs.commLine pid = "" → fs.statLine pid = "" →
      fs.statmLine pid = "" → fs.statusVmRSSKb pid = none →
      read_process_basic fs pageSize pid
        = some { pid := pid, name := "", time := 0, rss_pages := 0,
                 cpu_pct := 0, mem_pct := 0 }) := by
  refine ⟨get_all_processes_ok fs pageSize _ hok, ?_⟩
  intro pid hc hs hm hv
  unfold read_process_basic procTimeOf procRssOf
  rw [if_neg (not_not_intro hs), if_neg (not_not_intro hm), hv, hc]

theorem c4_read_degrades_witness :
    (∀ pid ∈ enumeratePids ["3", "junk"], statOk emptyFS pid = true) ∧
    ((∃ l, get_all_processes emptyFS 4096 (enumeratePids ["3", "junk"]) = some l ∧
        l.map (fun p => p.pid) = enumeratePids ["3", "junk"]) ∧
     (∀ pid, emptyFS.commLine pid = "" → emptyFS.statLine pid = "" →
        emptyFS.statmLine pid = "" → emptyFS.statusVmRSSKb pid = none →
        read_process_basic emptyFS 4096 pid
          = some { pid := pid, name := "", time := 0, rss_pages := 0,
                   cpu_pct := 0, mem_pct := 0 })) :=
  ⟨by decide, c4_read_degrades emptyFS 4096 ["3", "junk"] (by decide)⟩

/-! ## Claim C3: bar rendering -/

theorem countP_range_lt (n : Int) : ∀ (w : Nat),
    ((List.range w).countP (fun (i : Nat) => decide ((i : Int) < n)))
      = (min n w).toNat := by
  intro w
  induction w with
  | zero =>
    simp only [List.range_zero, List.countP_nil]
    omega
  | succ k ih =>
    rw [List.range_succ, List.countP_append, ih]
    simp only [List.countP_cons, List.countP_nil]
    by_cases h : (k : Int) < n
    · rw [if_pos (by simp [h])]
      omega
    · rw [if_neg (by simp [h])]
      omega

/-- **C3.** The number of filled cells `draw_bar` draws for width `w` and
fraction `f` equals `round(clamp(f, 0, 1) * w)`: the loop body only fills
cells with index below `filled`, which clamps the effect of a negative or
overlarge `filled` to the `[0, w]` range even though the cast itself is
unclamped. The filled count never exceeds `w` and, being a count, is never
negative. -/
theorem c3_draw_bar (w : Nat) (f : ℚ) :
    (drawnCells w f : Int) = round (max 0 (min 1 f) * w) ∧
    drawnCells w f ≤ w := by
  have hcount : drawnCells w f = (min (drawBarFilled w f) w).toNat :=
    countP_range_lt (drawBarFilled w f) w
  constructor
  swap
  · rw [hcount]
    omega
  rw [hcount]
  rcases lt_or_le f 0 with hf | hf
  · have hcl : max 0 (min 1 f) = 0 := by
      rw [min_eq_right (le_of_lt (lt_of_lt_of_le hf (by norm_num)))]
      exact max_eq_left (le_of_lt hf)
    rw [hcl, zero_mul, round_zero]
    have hwq : (0 : ℚ) ≤ (w : ℚ) := Nat.cast_nonneg w
    have hq : f * w + 1/2 ≤ 1/2 := by nlinarith
    have hn : drawBarFilled w f ≤ 0 := by
      unfold drawBarFilled cCastInt
      split
      · have h1 : ⌊f * (w : ℚ) + 1/2⌋ < 1 := by
          rw [Int.floor_lt]
          push_cast
          linarith
        omega
      · rename_i h0
        refine Int.ceil_le.mpr ?_
        push_cast
        exact le_of_lt (not_le.mp h0)
    omega
  · rcases le_or_lt f 1 with hf1 | hf1
    · have hcl : max 0 (min 1 f) = f := by
        rw [min_eq_right hf1]
        exact max_eq_right hf
      rw [hcl, round_eq]
      have hq0 : (0 : ℚ) ≤ f * w + 1/2 := by
        have := mul_nonneg hf (Nat.cast_nonneg (α := ℚ) w)
        linarith
      have hn : drawBarFilled w f = ⌊f * (w : ℚ) + 1/2⌋ := by
        unfold drawBarFilled cCastInt
        rw [if_pos hq0]
      have h0 : 0 ≤ ⌊f * (w : ℚ) + 1/2⌋ := Int.floor_nonneg.mpr hq0
      have hw : ⌊f * (w : ℚ) + 1/2⌋ < (w : Int) + 1 := by
        rw [Int.floor_lt]
        have hfw : f * (w : ℚ) ≤ (w : ℚ) :=
          mul_le_of_le_one_left (Nat.cast_nonneg w) hf1
        push_cast
        linarith
      rw [hn]
      omega
    · have hcl : max 0 (min 1 f) = 1 := by
        rw [min_eq_left (le_of_lt hf1)]
        exact max_eq_right zero_le_one
      rw [hcl, one_mul, round_natCast]
      have hq0 : (0 : ℚ) ≤ f * w + 1/2 := by
        have := mul_nonneg (le_of_lt (lt_trans zero_lt_one hf1))
          (Nat.cast_nonneg (α := ℚ) w)
        linarith
      have hn : drawBarFilled w f = ⌊f * (w : ℚ) + 1/2⌋ := by
        unfold drawBarFilled cCastInt
        rw [if_pos hq0]
      have hw : (w : Int) ≤ ⌊f * (w : ℚ) + 1/2⌋ := by
        rw [Int.le_floor]
        have hfw : (w : ℚ) ≤ f * (w : ℚ) :=
          le_mul_of_one_le_left (Nat.cast_nonneg w) (le_of_lt hf1)
        push_cast
        linarith
      rw [hn]
      omega

/-! ## Claim C5: sorting -/

theorem sortLe_cmpByKey_iff (key : Proc → ℚ) (a b : Proc) :
    sortLe (cmpByKey key) a b ↔
      key b < key a ∨ (key a = key b ∧ a.pid ≤ b.pid) := by
  unfold sortLe cmpByKey
  by_cases h : key b = key a
  · rw [if_pos h]
    simp only [decide_eq_false_iff_not, not_lt]
    constructor
    · intro hle
      exact Or.inr ⟨h.symm, hle⟩
    · rintro (hlt | ⟨-, hle⟩)
      · exact absurd h hlt.ne
      · exact hle
  · rw [if_neg h]
    simp only [decide_eq_false_iff_not, not_lt]
    constructor
    · intro hle
      exact Or.inl (lt_of_le_of_ne hle h)
    · rintro (hlt | ⟨heq, -⟩)
      · exact le_of_lt hlt
      · exact absurd heq.symm h

theorem sortLe_cmpPid_iff (a b : Proc) : sortLe cmpPid a b ↔ a.pid ≤ b.pid := by
  unfold sortLe cmpPid
  simp only [decide_eq_false_iff_not, not_lt]

instance (key : Proc → ℚ) : IsTotal Proc (sortLe (cmpByKey key)) where
  total a b := by
    rw [sortLe_cmpByKey_iff, sortLe_cmpByKey_iff]
    rcases lt_trichotomy (key a) (key b) with h | h | h
    · exact Or.inr (Or.inl h)
    · rcases le_total a.pid b.pid with hp | hp
      · exact Or.inl (Or.inr ⟨h, hp⟩)
      · exact Or.inr (Or.inr ⟨h.symm, hp⟩)
    · exact Or.inl (Or.inl h)

instance (key : Proc → ℚ) : IsTrans Proc (sortLe (cmpByKey key)) where
  trans a b c hab hbc := by
    rw [sortLe_cmpByKey_iff] at hab hbc ⊢
    rcases hab with h1 | ⟨e1, p1⟩
    · rcases hbc with h2 | ⟨e2, p2⟩
      · exact Or.inl (lt_trans h2 h1)
      · exact Or.inl (e2 ▸ h1)
    · rcases hbc with h2 | ⟨e2, p2⟩
      · exact Or.inl (e1.symm ▸ h2)
      · exact Or.inr ⟨e1.trans e2, le_trans p1 p2⟩

instance : IsTotal Proc (sortLe cmpPid) where
  total a b := by
    rw [sortLe_cmpPid_iff, sortLe_cmpPid_iff]
    exact le_total _ _

instance : IsTrans Proc (sortLe cmpPid) where
  trans a b c hab hbc := by
    rw [sortLe_cmpPid_iff] at hab hbc ⊢
    exact le_trans hab hbc

/-- **C5.** BY_CPU_DESC yields a permutation of the snapshot that is
non-increasing in `cpu_pct` with equal-`cpu_pct` entries in ascending pid
order; BY_MEM_DESC is the analogue on `mem_pct`; and BY_PID_ASC yields a
permutation strictly ascending in pid (pids are unique within a snapshot). -/
theorem c5_sort_modes (ps : List Proc)
    (hnd : (ps.map (fun p => p.pid)).Nodup) :
    ((sortProcs 0 ps).Pairwise (fun a b =>
        b.cpu_pct ≤ a.cpu_pct ∧ (a.cpu_pct = b.cpu_pct → a.pid ≤ b.pid)) ∧
      (sortProcs 0 ps).Perm ps) ∧
    ((sortProcs 1 ps).Pairwise (fun a b =>
        b.mem_pct ≤ a.mem_pct ∧ (a.mem_pct = b.mem_pct → a.pid ≤ b.pid)) ∧
      (sortProcs 1 ps).Perm ps) ∧
    ((sortProcs 2 ps).Pairwise (fun a b => a.pid < b.pid) ∧
      (sortProcs 2 ps).Perm ps) := by
  have e0 : sortProcs 0 ps = sortWith (cmpByKey fun p => p.cpu_pct) ps := by
    simp [sortProcs]
  have e1 : sortProcs 1 ps = sortWith (cmpByKey fun p => p.mem_pct) ps := by
    simp [sortProcs]
  have e2 : sortProcs 2 ps = sortWith cmpPid ps := by
    simp [sortProcs]
  refine ⟨⟨?_, ?_⟩, ⟨?_, ?_⟩, ?_, ?_⟩
  · rw [e0]
    refine (List.sorted_insertionSort _ ps).imp (fun hab => ?_)
    rcases (sortLe_cmpByKey_iff (fun p => p.cpu_pct) _ _).mp hab with h | ⟨e, p⟩
    · exact ⟨le_of_lt h, fun he => absurd he.symm h.ne⟩
    · exact ⟨le_of_eq e.symm, fun _ => p⟩
  · rw [e0]
    exact List.perm_insertionSort _ ps
  · rw [e1]
    refine (List.sorted_insertionSort _ ps).imp (fun hab => ?_)
    rcases (sortLe_cmpByKey_iff (fun p => p.mem_pct) _ _).mp hab with h | ⟨e, p⟩
    · exact ⟨le_of_lt h, fun he => absurd he.symm h.ne⟩
    · exact ⟨le_of_eq e.symm, fun _ => p⟩
  · rw [e1]
    exact List.perm_insertionSort _ ps
  · rw [e2]
    have hperm : (sortWith cmpPid ps).Perm ps := List.perm_insertionSort _ ps
    have hle : (sortWith cmpPid ps).Pairwise (fun a b => a.pid ≤ b.pid) :=
      (List.sorted_insertionSort _ ps).imp
        (fun hab => (sortLe_cmpPid_iff _ _).mp hab)
    have hnd' : ((sortWith cmpPid ps).map (fun p => p.pid)).Nodup :=
      ((hperm.map (fun p => p.pid)).nodup_iff).mpr hnd
    have hne : (sortWith cmpPid ps).Pairwise (fun a b => a.pid ≠ b.pid) :=
      List.pairwise_map.mp hnd'
    exact (hle.and hne).imp (fun h => lt_of_le_of_ne h.1 h.2)
  · rw [e2]
    exact List.perm_insertionSort _ ps

theorem c5_sort_modes_witness :
    (([wpA, wpB, wpC].map (fun p => p.pid)).Nodup) ∧
    (((sortProcs 0 [wpA, wpB, wpC]).Pairwise (fun a b =>
        b.cpu_pct ≤ a.cpu_pct ∧ (a.cpu_pct = b.cpu_pct → a.pid ≤ b.pid)) ∧
      (sortProcs 0 [wpA, wpB, wpC]).Perm [wpA, wpB, wpC]) ∧
    ((sortProcs 1 [wpA, wpB, wpC]).Pairwise (fun a b =>
        b.mem_pct ≤ a.mem_pct ∧ (a.mem_pct = b.mem_pct → a.pid ≤ b.pid)) ∧
      (sortProcs 1 [wpA, wpB, wpC]).Perm [wpA, wpB, wpC]) ∧
    ((sortProcs 2 [wpA, wpB, wpC]).Pairwise (fun a b => a.pid < b.pid) ∧
      (sortProcs 2 [wpA, wpB, wpC]).Perm [wpA, wpB, wpC])) :=
  ⟨by decide, c5_sort_modes [wpA, wpB, wpC] (by decide)⟩

/-- **C9.** After any session of iterations, the prior-state map contains an
entry for every pid observed in any snapshot of the session, and every entry
present before the session is still present — entries are never removed. -/
theorem c9_prior_map_invariant (m : List (Int × Nat)) (iters : List Iteration) :
    (∀ k, containsKey m k = true → containsKey (runSession m iters) k = true) ∧
    (∀ it ∈ iters, ∀ p ∈ it.procs,
      containsKey (runSession m iters) p.pid = true) := by
  constructor
  · intro k h
    exact runSession_contains_of iters k m h
  · intro it hit p hp
    exact runSession_contains_snapshot iters it p m hit hp

theorem c9_prior_map_invariant_witness :
    containsKey
      (runSession [(3, 5)] [⟨100, 1, 100, 4096, [c2proc]⟩]) 3 = true ∧
    containsKey
      (runSession [(3, 5)] [⟨100, 1, 100, 4096, [c2proc]⟩]) c2proc.pid = true :=
  ⟨(c9_prior_map_invariant [(3, 5)] [⟨100, 1, 100, 4096, [c2proc]⟩]).1 3 (by decide),
   (c9_prior_map_invariant [(3, 5)] [⟨100, 1, 100, 4096, [c2proc]⟩]).2
     ⟨100, 1, 100, 4096, [c2proc]⟩ (by simp) c2proc (by simp)⟩

end SystemMonitor
